import Mathlib

/-!
Verification of the paper-trading core of `jetgause/supabase-automation`:
the two-tier cache (`CacheService`), the advisory-lock wrapper
(`AdvisoryLockService`) and the mutation coordinator (`PaperTradingService`).
Each definition is a shallow embedding of the TypeScript source; JavaScript
numbers are modelled as rationals (all arithmetic in the claims is exact), and
the JavaScript `Map` is modelled as an association list in insertion order.
-/

set_option autoImplicit false

namespace SupabaseAutomation

/-! ## JavaScript `Map` model

ECMAScript `Map` semantics: iteration is in insertion order, `set` of an
existing key updates it in place (keeping its position), `set` of a fresh key
appends, `delete` removes the unique entry for a key, `keys().next().value`
yields the earliest-inserted key. -/

abbrev JsMap (V : Type) := List (String × V)

def jsGet {V : Type} : JsMap V → String → Option V
  | [], _ => none
  | (k, v) :: rest, key => if k = key then some v else jsGet rest key

def jsSet {V : Type} : JsMap V → String → V → JsMap V
  | [], key, val => [(key, val)]
  | (k, v) :: rest, key, val =>
    if k = key then (k, val) :: rest else (k, v) :: jsSet rest key val

/-- Model of `Map.delete`.  Map keys are unique, so removing every pair with the key is
the same as removing the single entry holding it. -/
def jsDelete {V : Type} (m : JsMap V) (key : String) : JsMap V :=
  m.filter (fun p => p.1 ≠ key)

/-- Model of `map.keys().next().value`: the earliest-inserted key, if any. -/
def jsFirstKey {V : Type} (m : JsMap V) : Option String :=
  m.head?.map Prod.fst

/-- JavaScript `x || d` on an optional number: `undefined` and `0` are both
falsy, so both fall back to the default. -/
def jsNumberOr (t : Option ℤ) (d : ℤ) : ℤ :=
  match t with
  | none => d
  | some t => if t = 0 then d else t

/-! ## Paper trading (`PaperTradingService`) -/

inductive Side where
  | buy
  | sell
deriving DecidableEq

structure Position where
  symbol : String
  quantity : ℚ
  averagePrice : ℚ
  unrealizedPnL : ℚ
  realizedPnL : ℚ
deriving DecidableEq

/-- Embeds `PaperTradingService.calculateNewPosition`
(src/src/services/apiKeyAuth.ts lines 471-520).  The three mutable locals
`newQuantity`, `newAveragePrice`, `realizedPnL` become the fields of the
returned record in each branch.  Division is rational; no claim exercises the
`newQuantity = 0` buy branch where JavaScript would produce `NaN`. -/
def calculateNewPosition (currentPosition : Option Position) (side : Side)
    (quantity price : ℚ) (symbol : String) : Position :=
  match currentPosition with
  | none =>
    { symbol := symbol
      quantity := match side with | Side.buy => quantity | Side.sell => -quantity
      averagePrice := price
      unrealizedPnL := 0
      realizedPnL := 0 }
  | some cur =>
    match side with
    | Side.buy =>
      let totalCost := cur.quantity * cur.averagePrice + quantity * price
      let newQuantity := cur.quantity + quantity
      { symbol := cur.symbol
        quantity := newQuantity
        averagePrice := totalCost / newQuantity
        unrealizedPnL := 0
        realizedPnL := cur.realizedPnL }
    | Side.sell =>
      let newQuantity := cur.quantity - quantity
      if 0 ≤ newQuantity then
        { symbol := cur.symbol
          quantity := newQuantity
          averagePrice := cur.averagePrice
          unrealizedPnL := 0
          realizedPnL := cur.realizedPnL + quantity * (price - cur.averagePrice) }
      else
        { symbol := cur.symbol
          quantity := newQuantity
          averagePrice := |newQuantity| * price / |newQuantity|
          unrealizedPnL := 0
          realizedPnL := cur.realizedPnL }

/-- Embeds `PaperTradingService.closePosition`
(src/src/services/apiKeyAuth.ts lines 564-574) up to the delegation point: it
returns the `(side, quantity, price)` triple passed on to `executeTrade`, or
`none` when the snapshot is absent or flat.  `executeTrade` is the only caller
of `withLock` on this path, so the `none` outcome acquires no lock. -/
def closePosition (position : Option Position) (price : ℚ) :
    Option (Side × ℚ × ℚ) :=
  match position with
  | none => none
  | some p =>
    if p.quantity = 0 then none
    else some (if 0 < p.quantity then Side.sell else Side.buy, |p.quantity|, price)

/-! ## Claims about the position arithmetic -/

/-- C4: on a symbol with no existing position, a buy opens a long of `+qty` at
`price` and a sell opens a short of `-qty` at `price`, both with zero realized
PnL. -/
theorem c4_open_position (symbol : String) (qty price : ℚ) :
    calculateNewPosition none Side.buy qty price symbol =
      { symbol := symbol, quantity := qty, averagePrice := price
        unrealizedPnL := 0, realizedPnL := 0 } ∧
    calculateNewPosition none Side.sell qty price symbol =
      { symbol := symbol, quantity := -qty, averagePrice := price
        unrealizedPnL := 0, realizedPnL := 0 } :=
  ⟨rfl, rfl⟩

/-- C1 counterexample: a sell of 50 at 140 added to a short of 100 held at 150
(same direction) sets `averagePrice` to the trade price 140, while the claimed
weighted average `(oldQty*oldAvg + addQty*price) / newQty` is different, under
either a signed or an unsigned reading of `addQty`. -/
theorem c1_sell_short_counterexample :
    (calculateNewPosition
        (some { symbol := "AAPL", quantity := -100, averagePrice := 150
                unrealizedPnL := 0, realizedPnL := 0 })
        Side.sell 50 140 "AAPL").averagePrice = 140 ∧
    ((-100 : ℚ) * 150 + (-50) * 140) / (-150) ≠ 140 ∧
    ((-100 : ℚ) * 150 + 50 * 140) / (-150) ≠ 140 := by
  refine ⟨?_, by norm_num, by norm_num⟩
  simp only [calculateNewPosition]
  norm_num

/-- C1 amended: a buy added to a long position yields the weighted-average
price `(oldQty*oldAvg + addQty*price) / newQty`, quantity the sum and
realizedPnL unchanged; a sell added to a short position yields quantity
`oldQty - addQty` and realizedPnL unchanged, but its averagePrice is set to
the trade price, not the weighted average. -/
theorem c1_same_direction_add (cur : Position) (qty price : ℚ) (symbol : String)
    (hq : 0 < qty) :
    (0 < cur.quantity →
      calculateNewPosition (some cur) Side.buy qty price symbol =
        { symbol := cur.symbol
          quantity := cur.quantity + qty
          averagePrice :=
            (cur.quantity * cur.averagePrice + qty * price) / (cur.quantity + qty)
          unrealizedPnL := 0
          realizedPnL := cur.realizedPnL }) ∧
    (cur.quantity < 0 →
      calculateNewPosition (some cur) Side.sell qty price symbol =
        { symbol := cur.symbol
          quantity := cur.quantity - qty
          averagePrice := price
          unrealizedPnL := 0
          realizedPnL := cur.realizedPnL }) := by
  constructor
  · intro _
    rfl
  · intro hshort
    have hneg : ¬ (0 ≤ cur.quantity - qty) := by linarith
    have habs : |cur.quantity - qty| ≠ 0 := by
      rw [abs_ne_zero]
      linarith
    simp only [calculateNewPosition, if_neg hneg]
    rw [mul_div_cancel_left₀ price habs]

/-- C1 witness: the spec's end-to-end step — a long of 100 at 150 plus a buy of
100 at 160 gives quantity 200 at averagePrice 155 with realizedPnL still 0. -/
theorem c1_same_direction_add_witness :
    calculateNewPosition
        (some { symbol := "AAPL", quantity := 100, averagePrice := 150
                unrealizedPnL := 0, realizedPnL := 0 })
        Side.buy 100 160 "AAPL" =
      { symbol := "AAPL", quantity := 200, averagePrice := 155
        unrealizedPnL := 0, realizedPnL := 0 } := by
  have h :=
    (c1_same_direction_add
        { symbol := "AAPL", quantity := 100, averagePrice := 150
          unrealizedPnL := 0, realizedPnL := 0 }
        100 160 "AAPL" (by norm_num)).1 (by norm_num)
  rw [h]
  norm_num

/-- C2 counterexample: a buy of 50 at 140 partially closing a short of 100 held
at 150 leaves realizedPnL at 0 (the claim would make it `50 * (140 - 150) =
-500`) and moves averagePrice from 150 to 160 (the claim would keep it at
150). -/
theorem c2_partial_close_counterexample :
    calculateNewPosition
        (some { symbol := "AAPL", quantity := -100, averagePrice := 150
                unrealizedPnL := 0, realizedPnL := 0 })
        Side.buy 50 140 "AAPL" =
      { symbol := "AAPL", quantity := -50, averagePrice := 160
        unrealizedPnL := 0, realizedPnL := 0 } ∧
    (0 : ℚ) ≠ 0 + 50 * (140 - 150) ∧ (160 : ℚ) ≠ 150 := by
  refine ⟨?_, by norm_num, by norm_num⟩
  simp only [calculateNewPosition]
  norm_num

/-- C2 amended: a sell partially closing a long adds `closedQty * (price -
oldAvg)` to realizedPnL and keeps averagePrice; a buy partially closing a
short instead leaves realizedPnL unchanged and recomputes averagePrice as
`(oldQty*oldAvg + qty*price) / (oldQty + qty)`. -/
theorem c2_partial_close (cur : Position) (qty price : ℚ) (symbol : String)
    (hq : 0 < qty) :
    (0 < cur.quantity → qty < cur.quantity →
      calculateNewPosition (some cur) Side.sell qty price symbol =
        { symbol := cur.symbol
          quantity := cur.quantity - qty
          averagePrice := cur.averagePrice
          unrealizedPnL := 0
          realizedPnL := cur.realizedPnL + qty * (price - cur.averagePrice) }) ∧
    (cur.quantity < 0 → qty < -cur.quantity →
      calculateNewPosition (some cur) Side.buy qty price symbol =
        { symbol := cur.symbol
          quantity := cur.quantity + qty
          averagePrice :=
            (cur.quantity * cur.averagePrice + qty * price) / (cur.quantity + qty)
          unrealizedPnL := 0
          realizedPnL := cur.realizedPnL }) := by
  constructor
  · intro _ hlt
    have hpos : (0 : ℚ) ≤ cur.quantity - qty := by linarith
    simp only [calculateNewPosition, if_pos hpos]
  · intro _ _
    rfl

/-- C2 witness: the spec's end-to-end step — a long of 200 at 155 reduced by a
sell of 50 at 170 keeps averagePrice 155 and realizes `50*(170-155) = 750`. -/
theorem c2_partial_close_witness :
    calculateNewPosition
        (some { symbol := "AAPL", quantity := 200, averagePrice := 155
                unrealizedPnL := 0, realizedPnL := 0 })
        Side.sell 50 170 "AAPL" =
      { symbol := "AAPL", quantity := 150, averagePrice := 155
        unrealizedPnL := 0, realizedPnL := 750 } := by
  have h :=
    (c2_partial_close
        { symbol := "AAPL", quantity := 200, averagePrice := 155
          unrealizedPnL := 0, realizedPnL := 0 }
        50 170 "AAPL" (by norm_num)).1 (by norm_num) (by norm_num)
  rw [h]
  norm_num

/-- C3 counterexample: a sell of 150 at 170 against a long of 100 held at 150
flips the position to a short of 50 at the trade price, but realizedPnL stays
0 — the claimed credit for the closed portion, `100 * (170 - 150) = 2000`, is
never applied. -/
theorem c3_flip_counterexample :
    calculateNewPosition
        (some { symbol := "AAPL", quantity := 100, averagePrice := 150
                unrealizedPnL := 0, realizedPnL := 0 })
        Side.sell 150 170 "AAPL" =
      { symbol := "AAPL", quantity := -50, averagePrice := 170
        unrealizedPnL := 0, realizedPnL := 0 } ∧
    (100 : ℚ) * (170 - 150) ≠ 0 := by
  constructor
  · simp only [calculateNewPosition]
    norm_num
  · norm_num

/-- C3 amended: a sign-flipping trade makes the excess beyond flat the new
quantity in both directions, but realizedPnL is never credited for the closed
portion; averagePrice becomes the trade price only for the sell flip, while
the buy flip of a short computes `(oldQty*oldAvg + qty*price) / newQty`. -/
theorem c3_flip (cur : Position) (qty price : ℚ) (symbol : String) :
    (0 < cur.quantity → cur.quantity < qty →
      calculateNewPosition (some cur) Side.sell qty price symbol =
        { symbol := cur.symbol
          quantity := cur.quantity - qty
          averagePrice := price
          unrealizedPnL := 0
          realizedPnL := cur.realizedPnL }) ∧
    (cur.quantity < 0 → -cur.quantity < qty →
      calculateNewPosition (some cur) Side.buy qty price symbol =
        { symbol := cur.symbol
          quantity := cur.quantity + qty
          averagePrice :=
            (cur.quantity * cur.averagePrice + qty * price) / (cur.quantity + qty)
          unrealizedPnL := 0
          realizedPnL := cur.realizedPnL }) := by
  constructor
  · intro _ hlt
    have hneg : ¬ (0 ≤ cur.quantity - qty) := by linarith
    have habs : |cur.quantity - qty| ≠ 0 := by
      rw [abs_ne_zero]
      linarith
    simp only [calculateNewPosition, if_neg hneg]
    rw [mul_div_cancel_left₀ price habs]
  · intro _ _
    rfl

/-- C3 witness: the sell flip of the counterexample input, obtained from the
amended theorem. -/
theorem c3_flip_witness :
    calculateNewPosition
        (some { symbol := "AAPL", quantity := 100, averagePrice := 150
                unrealizedPnL := 0, realizedPnL := 0 })
        Side.sell 150 170 "AAPL" =
      { symbol := "AAPL", quantity := -50, averagePrice := 170
        unrealizedPnL := 0, realizedPnL := 0 } := by
  have h :=
    (c3_flip
        { symbol := "AAPL", quantity := 100, averagePrice := 150
          unrealizedPnL := 0, realizedPnL := 0 }
        150 170 "AAPL").1 (by norm_num) (by norm_num)
  rw [h]
  norm_num

/-- C9: `closePosition` on an absent or flat snapshot returns `none` without
delegating to `executeTrade` (hence without touching the lock); otherwise it
delegates with the opposite side and the absolute snapshot quantity. -/
theorem c9_close_position (p : Position) (price : ℚ) :
    closePosition none price = none ∧
    (p.quantity = 0 → closePosition (some p) price = none) ∧
    (0 < p.quantity →
      closePosition (some p) price = some (Side.sell, p.quantity, price)) ∧
    (p.quantity < 0 →
      closePosition (some p) price = some (Side.buy, -p.quantity, price)) := by
  refine ⟨rfl, ?_, ?_, ?_⟩
  · intro h0
    simp [closePosition, h0]
  · intro hpos
    have h0 : p.quantity ≠ 0 := ne_of_gt hpos
    simp [closePosition, h0, hpos, abs_of_pos hpos]
  · intro hneg
    have h0 : p.quantity ≠ 0 := ne_of_lt hneg
    have hns : ¬ (0 < p.quantity) := by linarith
    simp [closePosition, h0, hns, abs_of_neg hneg]

/-- C9 witness: closing a flat position is a no-op and closing a short of 3
delegates a buy of 3. -/
theorem c9_close_position_witness :
    closePosition
        (some { symbol := "AAPL", quantity := 0, averagePrice := 10
                unrealizedPnL := 0, realizedPnL := 0 }) 12 = none ∧
    closePosition
        (some { symbol := "AAPL", quantity := -3, averagePrice := 10
                unrealizedPnL := 0, realizedPnL := 0 }) 12 =
      some (Side.buy, 3, 12) := by
  constructor
  · exact (c9_close_position
      { symbol := "AAPL", quantity := 0, averagePrice := 10
        unrealizedPnL := 0, realizedPnL := 0 } 12).2.1 rfl
  · have h := (c9_close_position
      { symbol := "AAPL", quantity := -3, averagePrice := 10
        unrealizedPnL := 0, realizedPnL := 0 } 12).2.2.2 (by norm_num)
    rw [h]
    norm_num

/-! ## Two-tier cache (`CacheService`)

The L1 memory tier is the `JsMap` above; times are integer milliseconds
(`Date.now()` values are threaded in as a `now` argument).  The L2 Redis tier
is abstracted as a lookup function `l2 : String → Option V`; `l2 key = none`
also covers the degraded not-`ready` client, which observably behaves the
same on the read path.  JSON serialization is the identity in the model. -/

structure CacheEntry (V : Type) where
  data : V
  timestamp : ℤ
  ttl : ℤ
deriving DecidableEq

/-- Embeds `CacheService.setMemory` (src/src/services/apiKeyAuth.ts lines
240-255).  `if (firstKey)` in the source is a JavaScript truthiness test, so
when the earliest-inserted key is the empty string no eviction happens; the
`ttl || this.memoryTtl` fallback likewise treats a zero ttl as absent
(`jsNumberOr`). -/
def setMemory {V : Type} (cache : JsMap (CacheEntry V)) (maxMemorySize : ℕ)
    (memoryTtl : ℤ) (now : ℤ) (key : String) (value : V) (ttl : Option ℤ) :
    JsMap (CacheEntry V) :=
  let cache1 :=
    if maxMemorySize ≤ cache.length then
      match jsFirstKey cache with
      | some firstKey => if firstKey = "" then cache else jsDelete cache firstKey
      | none => cache
    else cache
  jsSet cache1 key
    { data := value, timestamp := now, ttl := jsNumberOr ttl memoryTtl }

/-- Embeds the L1/L2 read path of `CacheService.get` (src/src/services/
apiKeyAuth.ts lines 185-214): a fresh L1 entry is served directly; an expired
one is deleted; on an L1 miss the L2 value, when present, repopulates L1 via
`setMemory` with the default ttl.  Returns the value handed to the caller and
the resulting L1 map. -/
def cacheGet {V : Type} (cache : JsMap (CacheEntry V)) (l2 : String → Option V)
    (maxMemorySize : ℕ) (memoryTtl : ℤ) (now : ℤ) (key : String) :
    Option V × JsMap (CacheEntry V) :=
  match jsGet cache key with
  | some entry =>
    if now - entry.timestamp < entry.ttl then (some entry.data, cache)
    else
      let cache1 := jsDelete cache key
      match l2 key with
      | some data =>
        (some data, setMemory cache1 maxMemorySize memoryTtl now key data none)
      | none => (none, cache1)
  | none =>
    match l2 key with
    | some data =>
      (some data, setMemory cache maxMemorySize memoryTtl now key data none)
    | none => (none, cache)

/-- A sequence of `setMemory` calls ( `(now, key, value, ttl)` each ), applied
in order. -/
def runSets {V : Type} (maxMemorySize : ℕ) (memoryTtl : ℤ)
    (ops : List (ℤ × String × V × Option ℤ)) (cache : JsMap (CacheEntry V)) :
    JsMap (CacheEntry V) :=
  ops.foldl
    (fun acc op => setMemory acc maxMemorySize memoryTtl op.1 op.2.1 op.2.2.1 op.2.2.2)
    cache

/-- UTF-16 code units of a string.  JavaScript strings and hence JavaScript
regular expressions (built without the `u` flag, as in the source) operate on
UTF-16 code units, so a character beyond the basic multilingual plane
contributes a surrogate pair of two units. -/
def utf16Units (s : String) : List ℕ :=
  s.data.foldr
    (fun c acc =>
      if c.val.toNat < 65536 then c.val.toNat :: acc
      else
        (55296 + (c.val.toNat - 65536) / 1024) ::
          (56320 + (c.val.toNat - 65536) % 1024) :: acc)
    []

/-- Line terminators (LF 10, CR 13, LS 8232, PS 8233): the regex `.` — and
therefore the `.*` that a glob `*` is translated to — never matches these,
because the source builds its `RegExp` without the `s` flag. -/
def lineTerminatorUnit (u : ℕ) : Bool :=
  u == 10 || u == 13 || u == 8232 || u == 8233

/-- Denotation of the anchored regular expression `^p$` that
`CacheService.matchPattern` builds from the glob `p` by replacing each `*`
(unit 42) with `.*` (src/src/services/apiKeyAuth.ts lines 301-305), running
on UTF-16 code units: `*` matches any run of non-line-terminator units, a
dot (unit 46) keeps its regex meaning and matches one non-line-terminator
unit, every other unit matches itself, and the whole string must be consumed.
This is the exact semantics of the translated regex for patterns containing
no further regex metacharacter (see `regexSafePattern`).  `fuel` bounds the
recursion depth and `s.length + p.length` steps always suffice. -/
def globMatchFuel : ℕ → List ℕ → List ℕ → Bool
  | _, [], [] => true
  | _, _ :: _, [] => false
  | 0, _, _ => false
  | fuel + 1, s, d :: p2 =>
    if d = 42 then
      globMatchFuel fuel s p2 ||
        (match s with
         | [] => false
         | c :: s2 => !(lineTerminatorUnit c) && globMatchFuel fuel s2 (d :: p2))
    else
      match s with
      | [] => false
      | c :: s2 =>
        if d = 46 then !(lineTerminatorUnit c) && globMatchFuel fuel s2 p2
        else (c == d) && globMatchFuel fuel s2 p2

def matchPattern (str pattern : String) : Bool :=
  globMatchFuel ((utf16Units str).length + (utf16Units pattern).length)
    (utf16Units str) (utf16Units pattern)

/-- Units that keep a regex meaning in the translated pattern besides the
glob star 42 and the dot 46: plus 43, question mark 63, parentheses 40 41,
square brackets 91 93, curly braces 123 125, backslash 92, caret 94,
dollar 36 and pipe 124.  Patterns containing none of these form the fragment
on which `matchPattern` is the exact denotation of the source's regular
expression — outside it the translation may not even be a valid regex. -/
def regexMetaUnits : List ℕ :=
  [43, 63, 40, 41, 91, 93, 123, 125, 92, 94, 36, 124]

/-- A glob in which `*` is the only wildcard and `.` the only other character
with regex meaning. -/
def regexSafePattern (pattern : String) : Bool :=
  (utf16Units pattern).all (fun u => !(regexMetaUnits.contains u))

/-- Embeds the L1 leg of `CacheService.invalidatePattern` (src/src/services/
apiKeyAuth.ts lines 275-296): collect the matching keys, then delete each. -/
def invalidatePatternMem {V : Type} (cache : JsMap (CacheEntry V))
    (pattern : String) : JsMap (CacheEntry V) :=
  let keysToDelete := (cache.map Prod.fst).filter (fun k => matchPattern k pattern)
  keysToDelete.foldl jsDelete cache

/-! ## Mutation coordinator pipeline -/

/-- Embeds the body of `PaperTradingService.executeTrade` at the level of the
L1 position cache: read the position (`getPosition`, L2 abstracted away as in
the source stub), compute the new one, store it with a 300 s ttl
(`storePosition`), then invalidate `position:SYMBOL*`.  Trade records live
under `trade:` keys and never match that pattern, so they are omitted. -/
def executeTradeBody (cache : JsMap (CacheEntry Position)) (maxMemorySize : ℕ)
    (memoryTtl now : ℤ) (symbol : String) (side : Side) (quantity price : ℚ) :
    JsMap (CacheEntry Position) :=
  let cacheKey := "position:" ++ symbol
  let r := cacheGet cache (fun _ => none) maxMemorySize memoryTtl now cacheKey
  let newPosition := calculateNewPosition r.1 side quantity price symbol
  let cache2 := setMemory r.2 maxMemorySize memoryTtl now cacheKey newPosition
    (some (300 * 1000))
  invalidatePatternMem cache2 ("position:" ++ symbol ++ "*")

/-- Embeds `PaperTradingService.getAllPositions` (src/src/services/
apiKeyAuth.ts lines 548-552): the stubbed method ignores all stored state and
returns the empty array. -/
def getAllPositions (cache : JsMap (CacheEntry Position)) : List Position :=
  []

/-! ## Library lemmas about the `Map` model -/

theorem jsGet_jsDelete {V : Type} (m : JsMap V) (key : String) :
    jsGet (jsDelete m key) key = none := by
  induction m with
  | nil => rfl
  | cons p rest ih =>
    obtain ⟨k, v⟩ := p
    by_cases h : k = key
    · simpa [jsDelete, List.filter_cons, h] using ih
    · simpa [jsDelete, List.filter_cons, h, jsGet] using ih

theorem jsDelete_eq_self {V : Type} (m : JsMap V) (key : String)
    (h : key ∉ m.map Prod.fst) : jsDelete m key = m := by
  rw [jsDelete, List.filter_eq_self]
  intro p hp
  simp only [decide_eq_true_eq]
  intro hcontra
  exact h (hcontra ▸ List.mem_map_of_mem Prod.fst hp)

theorem jsSet_fresh {V : Type} (m : JsMap V) (key : String) (v : V)
    (h : key ∉ m.map Prod.fst) : jsSet m key v = m ++ [(key, v)] := by
  induction m with
  | nil => rfl
  | cons p rest ih =>
    obtain ⟨k, w⟩ := p
    simp only [List.map_cons, List.mem_cons] at h
    push_neg at h
    simp only [jsSet, if_neg (Ne.symm h.1), List.cons_append]
    rw [ih h.2]

theorem length_jsSet_le {V : Type} (m : JsMap V) (key : String) (v : V) :
    (jsSet m key v).length ≤ m.length + 1 := by
  induction m with
  | nil => simp [jsSet]
  | cons p rest ih =>
    obtain ⟨k, w⟩ := p
    by_cases h : k = key
    · simp [jsSet, h]
    · simp only [jsSet, if_neg h, List.length_cons]
      omega

theorem mem_keys_jsSet {V : Type} (m : JsMap V) (key a : String) (v : V)
    (h : a ∈ (jsSet m key v).map Prod.fst) : a ∈ m.map Prod.fst ∨ a = key := by
  induction m with
  | nil =>
    simp only [jsSet, List.map_cons, List.map_nil, List.mem_singleton] at h
    exact Or.inr h
  | cons p rest ih =>
    obtain ⟨k, w⟩ := p
    by_cases hk : k = key
    · simp only [jsSet, if_pos hk, List.map_cons, List.mem_cons] at h ⊢
      rcases h with h | h
      · exact Or.inl (Or.inl h)
      · exact Or.inl (Or.inr h)
    · simp only [jsSet, if_neg hk, List.map_cons, List.mem_cons] at h ⊢
      rcases h with h | h
      · exact Or.inl (Or.inl h)
      · rcases ih h with h2 | h2
        · exact Or.inl (Or.inr h2)
        · exact Or.inr h2

theorem keys_jsDelete_subset {V : Type} (m : JsMap V) (key : String) :
    (jsDelete m key).map Prod.fst ⊆ m.map Prod.fst :=
  ((List.filter_sublist m).map Prod.fst).subset

theorem jsGet_eq_none_of_not_mem {V : Type} (m : JsMap V) (key : String)
    (h : key ∉ m.map Prod.fst) : jsGet m key = none := by
  induction m with
  | nil => rfl
  | cons p rest ih =>
    obtain ⟨k, v⟩ := p
    simp only [List.map_cons, List.mem_cons] at h
    push_neg at h
    simp only [jsGet, if_neg (Ne.symm h.1)]
    exact ih h.2

theorem foldl_jsDelete_eq_filter {V : Type} (ks : List String) (m : JsMap V) :
    ks.foldl jsDelete m = m.filter (fun p => !(ks.contains p.1)) := by
  induction ks generalizing m with
  | nil => simp
  | cons k ks ih =>
    simp only [List.foldl_cons, ih, jsDelete, List.filter_filter]
    apply List.filter_congr
    intro p _
    by_cases h1 : p.1 = k <;> by_cases h2 : ks.contains p.1 <;>
      simp [h1, h2, List.contains_cons]

/-- One `setMemory` call keeps the L1 size within the bound and keeps the empty
string out of the key set, provided the inserted key is nonempty. -/
theorem setMemory_preserves {V : Type} (cache : JsMap (CacheEntry V))
    (maxMemorySize : ℕ) (memoryTtl now : ℤ) (key : String) (value : V)
    (ttl : Option ℤ) (hmax : 1 ≤ maxMemorySize) (hkey : key ≠ "")
    (hemp : "" ∉ cache.map Prod.fst) (hlen : cache.length ≤ maxMemorySize) :
    (setMemory cache maxMemorySize memoryTtl now key value ttl).length ≤
        maxMemorySize ∧
    "" ∉ (setMemory cache maxMemorySize memoryTtl now key value ttl).map
        Prod.fst := by
  have hkeys : ∀ m1 : JsMap (CacheEntry V), "" ∉ m1.map Prod.fst →
      "" ∉ (jsSet m1 key
        { data := value, timestamp := now
          ttl := jsNumberOr ttl memoryTtl }).map Prod.fst := by
    intro m1 h1 hcontra
    rcases mem_keys_jsSet m1 key "" _ hcontra with h | h
    · exact h1 h
    · exact hkey h.symm
  by_cases hcap : maxMemorySize ≤ cache.length
  · rcases cache with _ | ⟨⟨k0, e0⟩, rest⟩
    · exfalso
      simp only [List.length_nil] at hcap
      omega
    · have hk0 : k0 ≠ "" := by
        intro h
        exact hemp (by simp [h])
      have hform :
          setMemory ((k0, e0) :: rest) maxMemorySize memoryTtl now key value ttl =
            jsSet (jsDelete ((k0, e0) :: rest) k0) key
              { data := value, timestamp := now
                ttl := jsNumberOr ttl memoryTtl } := by
        simp only [setMemory, if_pos hcap, jsFirstKey, List.head?_cons,
          Option.map_some', if_neg hk0]
      rw [hform]
      refine ⟨?_, hkeys _ (fun hc => hemp (keys_jsDelete_subset _ _ hc))⟩
      have h1 : (jsDelete ((k0, e0) :: rest) k0).length ≤ rest.length := by
        have hhead : jsDelete ((k0, e0) :: rest) k0 = jsDelete rest k0 := by
          simp [jsDelete, List.filter_cons]
        rw [hhead, jsDelete]
        exact rest.length_filter_le _
      have h2 := length_jsSet_le (jsDelete ((k0, e0) :: rest) k0) key
        { data := value, timestamp := now, ttl := jsNumberOr ttl memoryTtl }
      simp only [List.length_cons] at hlen
      omega
  · have hform : setMemory cache maxMemorySize memoryTtl now key value ttl =
        jsSet cache key
          { data := value, timestamp := now
            ttl := jsNumberOr ttl memoryTtl } := by
      simp only [setMemory, if_neg hcap]
    rw [hform]
    refine ⟨?_, hkeys cache hemp⟩
    have h2 := length_jsSet_le cache key
      { data := value, timestamp := now, ttl := jsNumberOr ttl memoryTtl }
    omega

theorem runSets_preserves {V : Type} (maxMemorySize : ℕ) (memoryTtl : ℤ)
    (ops : List (ℤ × String × V × Option ℤ)) (hmax : 1 ≤ maxMemorySize) :
    ∀ cache : JsMap (CacheEntry V), (∀ op ∈ ops, op.2.1 ≠ "") →
      "" ∉ cache.map Prod.fst → cache.length ≤ maxMemorySize →
      (runSets maxMemorySize memoryTtl ops cache).length ≤ maxMemorySize ∧
      "" ∉ (runSets maxMemorySize memoryTtl ops cache).map Prod.fst := by
  induction ops with
  | nil =>
    intro cache _ h1 h2
    exact ⟨h2, h1⟩
  | cons op ops ih =>
    intro cache hops h1 h2
    have hop : op.2.1 ≠ "" := hops op (List.mem_cons_self op ops)
    have step := setMemory_preserves cache maxMemorySize memoryTtl op.1 op.2.1
      op.2.2.1 op.2.2.2 hmax hop h1 h2
    simp only [runSets, List.foldl_cons]
    exact ih _ (fun o ho => hops o (List.mem_cons_of_mem op ho)) step.2 step.1

/-- C6 counterexample: with the configured maximum at 1 entry, inserting under
the key `""` and then under `"a"` grows L1 to 2 entries — the JavaScript
truthiness test `if (firstKey)` skips eviction when the oldest key is the
empty string, so the bound is exceeded and nothing is evicted. -/
theorem c6_eviction_counterexample :
    (runSets 1 300000 [(0, "", true, none), (1, "a", true, none)]
      ([] : JsMap (CacheEntry Bool))).length = 2 ∧ ¬ (2 ≤ 1) := by
  constructor
  · rfl
  · omega

/-- C6 amended: provided no key is the empty string, the L1 map never exceeds
the configured maximum (which the configuration validates as positive), and an
insert of a fresh key at capacity evicts exactly the single oldest-inserted
entry, keeping every other entry and appending the new one. -/
theorem c6_bounded_fifo_eviction {V : Type} (maxMemorySize : ℕ) (memoryTtl : ℤ) :
    (∀ ops : List (ℤ × String × V × Option ℤ),
      1 ≤ maxMemorySize → (∀ op ∈ ops, op.2.1 ≠ "") →
      (runSets maxMemorySize memoryTtl ops []).length ≤ maxMemorySize) ∧
    (∀ (f : String) (e : CacheEntry V) (rest : JsMap (CacheEntry V)) (now : ℤ)
        (key : String) (value : V) (ttl : Option ℤ),
      f ≠ "" → key ∉ ((f, e) :: rest).map Prod.fst →
      (((f, e) :: rest).map Prod.fst).Nodup →
      ((f, e) :: rest).length = maxMemorySize →
      setMemory ((f, e) :: rest) maxMemorySize memoryTtl now key value ttl =
        rest ++ [(key, { data := value, timestamp := now
                         ttl := jsNumberOr ttl memoryTtl })]) := by
  constructor
  · intro ops hmax hops
    exact (runSets_preserves maxMemorySize memoryTtl ops hmax [] hops
      (by simp) (by simp)).1
  · intro f e rest now key value ttl hf hkey hnodup hsize
    have hcap : maxMemorySize ≤ ((f, e) :: rest).length := le_of_eq hsize.symm
    have hfrest : f ∉ rest.map Prod.fst := by
      simp only [List.map_cons, List.nodup_cons] at hnodup
      exact hnodup.1
    have hdel : jsDelete ((f, e) :: rest) f = rest := by
      have h1 : jsDelete ((f, e) :: rest) f = jsDelete rest f := by
        simp [jsDelete, List.filter_cons]
      rw [h1, jsDelete_eq_self rest f hfrest]
    have hkrest : key ∉ rest.map Prod.fst := by
      intro h
      exact hkey (by simp [h])
    have hform :
        setMemory ((f, e) :: rest) maxMemorySize memoryTtl now key value ttl =
          jsSet (jsDelete ((f, e) :: rest) f) key
            { data := value, timestamp := now
              ttl := jsNumberOr ttl memoryTtl } := by
      simp only [setMemory, if_pos hcap, jsFirstKey, List.head?_cons,
        Option.map_some', if_neg hf]
    rw [hform, hdel, jsSet_fresh rest key _ hkrest]

/-- C6 witness: two inserts of distinct nonempty keys with the maximum at 1
leave a single entry. -/
theorem c6_bounded_fifo_eviction_witness :
    (runSets 1 300000 [(0, "a", true, none), (1, "b", true, none)]
      ([] : JsMap (CacheEntry Bool))).length ≤ 1 :=
  (c6_bounded_fifo_eviction 1 300000).1
    [(0, "a", true, none), (1, "b", true, none)] (by omega) (by decide)

/-- C7: a logically expired L1 entry (`ttl ≤ now - writtenAt`) is never served:
`get` removes it from L1 and returns exactly what L2 holds — `none` when L2
also misses, in which case the resulting L1 no longer contains the key. -/
theorem c7_expired_entry_absent {V : Type} (cache : JsMap (CacheEntry V))
    (l2 : String → Option V) (maxMemorySize : ℕ) (memoryTtl now : ℤ)
    (key : String) (entry : CacheEntry V)
    (hfound : jsGet cache key = some entry)
    (hexpired : entry.ttl ≤ now - entry.timestamp) :
    cacheGet cache l2 maxMemorySize memoryTtl now key =
      (l2 key,
        match l2 key with
        | some data =>
          setMemory (jsDelete cache key) maxMemorySize memoryTtl now key data none
        | none => jsDelete cache key) ∧
    jsGet (jsDelete cache key) key = none := by
  have hlt : ¬ (now - entry.timestamp < entry.ttl) := not_lt.mpr hexpired
  constructor
  · simp only [cacheGet, hfound, if_neg hlt]
    cases l2 key <;> rfl
  · exact jsGet_jsDelete cache key

/-- C7 witness: the spec's TTL example — a value written at time 0 with a
100 ms ttl is absent from a `get` at 150 ms (L2 empty), and the entry is gone
from L1. -/
theorem c7_expired_entry_absent_witness :
    cacheGet [("k", { data := true, timestamp := 0, ttl := 100 })]
        (fun _ => none) 100 300000 150 "k" = (none, []) := by
  have h := (c7_expired_entry_absent
    [("k", { data := true, timestamp := 0, ttl := 100 })]
    (fun _ => none) 100 300000 150 "k"
    { data := true, timestamp := 0, ttl := 100 } rfl (by norm_num)).1
  rw [h]
  rfl

/-- C10: `getAllPositions` is the empty sequence on every cache state, in
particular after any `executeTrade` body has stored a position. -/
theorem c10_get_all_positions_empty (cache : JsMap (CacheEntry Position))
    (maxMemorySize : ℕ) (memoryTtl now : ℤ) (symbol : String) (side : Side)
    (quantity price : ℚ) :
    getAllPositions cache = [] ∧
    getAllPositions (executeTradeBody cache maxMemorySize memoryTtl now symbol
      side quantity price) = [] :=
  ⟨rfl, rfl⟩

/-- C8: for a glob in which `*` is the wildcard — a pattern free of regex
metacharacters other than `*` and the any-character `.` — `invalidatePattern`
deletes from L1 exactly the keys matched by the anchored regex translation of
the glob.  In particular `"position:AAPL*"` removes `position:AAPL` and
`position:AAPL_meta` but keeps `position:MSFT`, and the dotted pattern
`"position:BRK.B*"` removes the key `position:BRKXB`, because the translated
`.` keeps its any-character regex meaning. -/
theorem c8_invalidate_pattern {V : Type} (cache : JsMap (CacheEntry V))
    (pattern : String) (e1 e2 e3 e4 : CacheEntry V)
    (hsafe : regexSafePattern pattern = true) :
    invalidatePatternMem cache pattern =
      cache.filter (fun p => !(matchPattern p.1 pattern)) ∧
    invalidatePatternMem
        [("position:AAPL", e1), ("position:AAPL_meta", e2), ("position:MSFT", e3)]
        "position:AAPL*" = [("position:MSFT", e3)] ∧
    invalidatePatternMem [("position:BRKXB", e4)] "position:BRK.B*" = [] := by
  have hgen : ∀ (m : JsMap (CacheEntry V)) (pat : String),
      invalidatePatternMem m pat =
        m.filter (fun p => !(matchPattern p.1 pat)) := by
    intro m pat
    simp only [invalidatePatternMem, foldl_jsDelete_eq_filter]
    apply List.filter_congr
    intro p hp
    by_cases h : matchPattern p.1 pat
    · have hmem : p.1 ∈ (m.map Prod.fst).filter (fun k => matchPattern k pat) :=
        List.mem_filter.mpr ⟨List.mem_map_of_mem Prod.fst hp, h⟩
      simp [List.elem_iff, hmem, h]
    · have hmem : p.1 ∉ (m.map Prod.fst).filter (fun k => matchPattern k pat) := by
        intro hc
        exact h (List.mem_filter.mp hc).2
      simp [List.elem_iff, hmem, h]
  refine ⟨hgen cache pattern, ?_, ?_⟩ <;>
    rw [hgen] <;> rfl

/-- C8 witness: the concrete AAPL example, with the safe-pattern hypothesis of
the theorem discharged at `"position:AAPL*"`. -/
theorem c8_invalidate_pattern_witness :
    regexSafePattern "position:AAPL*" = true ∧
    invalidatePatternMem
        [("position:AAPL", ⟨true, 0, 100⟩), ("position:AAPL_meta", ⟨true, 0, 100⟩),
         ("position:MSFT", (⟨true, 0, 100⟩ : CacheEntry Bool))]
        "position:AAPL*" =
      [("position:MSFT", (⟨true, 0, 100⟩ : CacheEntry Bool))] :=
  ⟨by decide,
    (c8_invalidate_pattern
        [("position:AAPL", ⟨true, 0, 100⟩), ("position:AAPL_meta", ⟨true, 0, 100⟩),
         ("position:MSFT", (⟨true, 0, 100⟩ : CacheEntry Bool))]
        "position:AAPL*" ⟨true, 0, 100⟩ ⟨true, 0, 100⟩ ⟨true, 0, 100⟩ ⟨true, 0, 100⟩
        (by decide)).2.1⟩

/-! ## Advisory lock wrapper (`AdvisoryLockService`)

`withLock`/`tryWithLock` (src/src/services/advisoryLock.ts lines 95-133) are
modelled by their control flow: `acquired` is the boolean the non-blocking
`pg_try_advisory_lock` returns, the inner function's termination is an
`Except` value (`ok` = normal return, `error` = raise), and the observable
lock traffic is recorded as an event trace.  `releaseLock` issues the unlock
query and then, in its own `finally`, returns the connection to the pool; the
callers run it in a `finally`, so it fires on both terminations of the inner
function.  On a failed acquisition `acquireLock` itself releases the pooled
connection before returning null. -/

inductive LockEvent where
  | tryLock (acquired : Bool)
  | unlock
  | connRelease
deriving DecidableEq, BEq

inductive LockError (ε : Type) where
  | lockUnavailable (key : String)
  | inner (e : ε)
deriving DecidableEq

/-- Embeds `acquireLock`: the trace of one acquisition attempt, and whether a
lock-holding connection was handed back. -/
def acquireLock (acquired : Bool) : Option Unit × List LockEvent :=
  if acquired then (some (), [LockEvent.tryLock true])
  else (none, [LockEvent.tryLock false, LockEvent.connRelease])

/-- Embeds `releaseLock`: unlock query, then connection release in its `finally`. -/
def releaseLock : List LockEvent :=
  [LockEvent.unlock, LockEvent.connRelease]

/-- Embeds `AdvisoryLockService.withLock`: a failed acquisition raises (the
`LockUnavailable` error of the spec's taxonomy); otherwise the inner function
runs inside try/finally, so `releaseLock` is appended to the trace whether it
returns or raises. -/
def withLock {ε α : Type} (key : String) (acquired : Bool) (fn : Except ε α) :
    Except (LockError ε) α × List LockEvent :=
  match acquireLock acquired with
  | (none, events) => (Except.error (LockError.lockUnavailable key), events)
  | (some _, events) =>
    match fn with
    | Except.ok a => (Except.ok a, events ++ releaseLock)
    | Except.error e => (Except.error (LockError.inner e), events ++ releaseLock)

/-- Embeds `AdvisoryLockService.tryWithLock`: identical to `withLock` except
that a failed acquisition returns `none` instead of raising. -/
def tryWithLock {ε α : Type} (acquired : Bool) (fn : Except ε α) :
    Except ε (Option α) × List LockEvent :=
  match acquireLock acquired with
  | (none, events) => (Except.ok none, events)
  | (some _, events) =>
    match fn with
    | Except.ok a => (Except.ok (some a), events ++ releaseLock)
    | Except.error e => (Except.error e, events ++ releaseLock)

/-- C5: when acquisition fails, `withLock` fails with `LockUnavailable` while
`tryWithLock` returns `none`; when acquisition succeeds, both release the lock
and its connection exactly once, whether the inner function returns normally
or raises. -/
theorem c5_lock_release_once {ε α : Type} (key : String) (fn : Except ε α) :
    (withLock key false fn).1 = Except.error (LockError.lockUnavailable key) ∧
    (tryWithLock false fn).1 = Except.ok none ∧
    ((withLock key true fn).2.count LockEvent.unlock = 1 ∧
      (withLock key true fn).2.count LockEvent.connRelease = 1) ∧
    ((tryWithLock true fn).2.count LockEvent.unlock = 1 ∧
      (tryWithLock true fn).2.count LockEvent.connRelease = 1) := by
  cases fn <;>
    simp [withLock, tryWithLock, acquireLock, releaseLock, List.count_cons,
      List.count_append] <;> decide

end SupabaseAutomation
